import Mathlib

/-!
# Scratch "data" blocks: list and variable primitives

A shallow embedding of `src/blocks/data.js` (class `Scratch3DataBlocks`): the
list operations `addToList`, `deleteOfList`, `deleteAllOfList`, `insertAtList`,
`replaceItemOfList`, `itemOfList`, `itemNumOfList`, `lengthOfList`,
`listContainsItem` and `getListContents`, and the scalar operations
`setVariable` and `changeVariableBy`.

Conventions of the embedding.

* A block receives `{LIST, ...}` and `util`, and first resolves the list with
  `getVariableObject(util, LIST, Variable.LIST_TYPE)`. The resolver lives in
  the runtime, outside this file; every operation below starts from the list
  variable the resolver returned.
* JavaScript arrays are objects with identity. An array is modelled by its
  identity (`ref`) together with its elements; in-place methods (`push`,
  `splice`, `pop`) keep the identity, while `[]` and `slice()` create an array
  with the next unused identity of the store.
* `Cast.toListIndex`, `Cast.compare` and `Cast.toNumber` belong to `util/cast`.
  The result of `Cast.toListIndex` is an argument of the operations
  (`ListIndex`); the comparator and the number conversion are function
  arguments. `Cast.compare` and `Cast.toNumber` below have the documented
  behaviour and are used for worked examples only.
* Numbers are integral values or `NaN`. The arithmetic of doubles is not
  modelled: the operator `+` of `changeVariableBy` is a function argument.
* `util.ioQuery` is modelled by the list of the calls made so far.
-/

namespace Scratch3DataBlocks

/-- The source constant `LIST_ITEM_LIMIT` (data.js, line 8). -/
def LIST_ITEM_LIMIT : Nat := 200000

/-- Primitive values held by variables and list cells. `number` carries an
integral value of a JavaScript number, `nan` is `NaN`, and `undefined` is what
an out-of-range array read produces. The list operations never look inside a
number. -/
inductive Value where
  | number (n : Int)
  | nan
  | string (s : String)
  | boolean (b : Bool)
  | undefined
  deriving DecidableEq, Repr

/-- JavaScript strict equality `===` on primitives: structural, except that
`NaN` is not equal to itself. -/
def Value.strictEquals (a b : Value) : Bool :=
  match a, b with
  | .nan, _ => false
  | _, .nan => false
  | x, y => decide (x = y)

/-- Number of UTF-16 code units of one character. -/
def utf16Units (c : Char) : Nat :=
  if c.toNat < 65536 then 1 else 2

/-- The JavaScript `length` of a string: its number of UTF-16 code units. -/
def jsLength (s : String) : Nat :=
  (s.data.map utf16Units).sum

/-- The string an element contributes to `Array.prototype.join`: `undefined`
gives the empty string, every other value its `ToString`. -/
def Value.joinString : Value → String
  | .number n => toString n
  | .nan => "NaN"
  | .string s => s
  | .boolean true => "true"
  | .boolean false => "false"
  | .undefined => ""

/-- The method `Array.prototype.join(separator)`. -/
def join (separator : String) : List Value → String
  | [] => ""
  | [v] => v.joinString
  | v :: w :: rest => v.joinString ++ separator ++ join separator (w :: rest)

/-- Modelled from the spec: the value returned by `Cast.toListIndex` of
`util/cast`, which is not part of the sources at hand. It is a 1-based index,
or one of the two sentinels `Cast.LIST_INVALID` and `Cast.LIST_ALL`. The
sentinels are not numbers: `sentinel - 1` is `NaN` and `sentinel > n` is
false. -/
inductive ListIndex where
  | LIST_INVALID
  | LIST_ALL
  | index (n : Int)
  deriving DecidableEq, Repr

/-- Modelled from the spec: what `Cast.toListIndex(INDEX, length)` may return
for a list bound `length`: either sentinel, or a 1-based index within
`1 .. length`. -/
def ListIndex.resultFor (length : Nat) : ListIndex → Prop
  | .index n => 1 ≤ n ∧ n ≤ (length : Int)
  | _ => True

instance (length : Nat) (r : ListIndex) : Decidable (r.resultFor length) := by
  cases r <;> unfold ListIndex.resultFor <;> infer_instance

/-- The expression `index > LIST_ITEM_LIMIT`; a sentinel coerces to `NaN`, for
which every comparison is false. -/
def ListIndex.gtLimit : ListIndex → Bool
  | .index n => decide (n > (LIST_ITEM_LIMIT : Int))
  | _ => false

/-- The integer that `splice` and the element read make of `index - 1`:
`n - 1` for a number, and `NaN` for a sentinel, which `ToIntegerOrInfinity`
turns into 0. -/
def ListIndex.minusOne : ListIndex → Int
  | .index n => n - 1
  | _ => 0

/-- The position at which `splice` starts: a negative `start` counts back from
the length of the array, and the result is clamped to `0 .. len`. -/
def splice.actualStart (len : Nat) (start : Int) : Nat :=
  (if start < 0 then max ((len : Int) + start) 0 else min start (len : Int)).toNat

/-- The method `Array.prototype.splice(start, deleteCount, ...items)` acting on
the elements: at most the elements that remain after the start position are
deleted, and `items` take their place. -/
def splice (xs : List Value) (start : Int) (deleteCount : Nat) (items : List Value) :
    List Value :=
  let actualStart : Nat := splice.actualStart xs.length start
  let actualDeleteCount : Nat := min deleteCount (xs.length - actualStart)
  xs.take actualStart ++ items ++ xs.drop (actualStart + actualDeleteCount)

/-- An array object: its identity and its elements. -/
structure JSArray where
  ref : Nat
  items : List Value
  deriving DecidableEq, Repr

/-- The fields of a list variable used by the blocks: `value`, the backing
array, and the transient `_monitorUpToDate` flag. -/
structure ListVariable where
  value : JSArray
  _monitorUpToDate : Bool
  deriving DecidableEq, Repr

/-- The list variable returned by the resolver, together with the identity the
next newly created array will get. -/
structure Store where
  list : ListVariable
  nextRef : Nat
  deriving DecidableEq, Repr

/-- The backing array is an object that already exists: its identity is below
the next unused one. -/
def Store.WellFormed (s : Store) : Prop :=
  s.list.value.ref < s.nextRef

instance (s : Store) : Decidable s.WellFormed := by
  unfold Store.WellFormed; infer_instance

/-- Source `lengthOfList` (lines 282-285). -/
def lengthOfList (s : Store) : Nat :=
  s.list.value.items.length

/-- What `getListContents` returns: an array in monitor mode, a string
otherwise. -/
inductive Contents where
  | array (a : JSArray)
  | text (s : String)
  deriving DecidableEq, Repr

/-- The loop of `getListContents` (lines 180-188): true when every element is a
string of length 1. -/
def allSingleLetters : List Value → Bool
  | [] => true
  | .string s :: rest => if jsLength s = 1 then allSingleLetters rest else false
  | _ :: _ => false

/-- Source `getListContents` (lines 164-193); `updateMonitor` is
`util.thread.updateMonitor`. -/
def getListContents (s : Store) (updateMonitor : Bool) : Contents × Store :=
  if updateMonitor then
    if s.list._monitorUpToDate then
      (.array s.list.value, s)
    else
      (.array { ref := s.nextRef, items := s.list.value.items },
        { list := { s.list with _monitorUpToDate := true }, nextRef := s.nextRef + 1 })
  else if allSingleLetters s.list.value.items then
    (.text (join "" s.list.value.items), s)
  else
    (.text (join " " s.list.value.items), s)

/-- Source `addToList` (lines 195-201). -/
def addToList (s : Store) (ITEM : Value) : Store :=
  if s.list.value.items.length < LIST_ITEM_LIMIT then
    { s with list :=
        { value := { s.list.value with items := s.list.value.items ++ [ITEM] },
          _monitorUpToDate := false } }
  else
    s

/-- Source `deleteOfList` (lines 203-214); `index` is the value of
`Cast.toListIndex(INDEX, list.value.length)`. -/
def deleteOfList (s : Store) (index : ListIndex) : Store :=
  if index = .LIST_INVALID then
    s
  else if index = .LIST_ALL then
    { list := { s.list with value := { ref := s.nextRef, items := [] } },
      nextRef := s.nextRef + 1 }
  else
    { s with list :=
        { value := { s.list.value with items := splice s.list.value.items index.minusOne 1 [] },
          _monitorUpToDate := false } }

/-- Source `deleteAllOfList` (lines 216-219). -/
def deleteAllOfList (s : Store) : Store :=
  { list := { s.list with value := { ref := s.nextRef, items := [] } },
    nextRef := s.nextRef + 1 }

/-- Source `insertAtList` (lines 221-235); `index` is the value of
`Cast.toListIndex(INDEX, list.value.length + 1)`. -/
def insertAtList (s : Store) (index : ListIndex) (ITEM : Value) : Store :=
  if index = .LIST_INVALID then
    s
  else if index.gtLimit then
    s
  else
    let spliced := splice s.list.value.items index.minusOne 0 [ITEM]
    let items := if spliced.length > LIST_ITEM_LIMIT then spliced.dropLast else spliced
    { s with list :=
        { value := { s.list.value with items := items }, _monitorUpToDate := false } }

/-- Source `replaceItemOfList` (lines 237-245); `index` is the value of
`Cast.toListIndex(INDEX, list.value.length)`. -/
def replaceItemOfList (s : Store) (index : ListIndex) (ITEM : Value) : Store :=
  if index = .LIST_INVALID then
    s
  else
    { s with list :=
        { value := { s.list.value with items := splice s.list.value.items index.minusOne 1 [ITEM] },
          _monitorUpToDate := false } }

/-- The element read `list.value[index - 1]`: a sentinel reads the property
`NaN`, which an array does not have, and a position outside the array is
`undefined`. -/
def elementAt (xs : List Value) : ListIndex → Value
  | .index n => if 1 ≤ n then (xs[(n - 1).toNat]?).getD .undefined else .undefined
  | _ => .undefined

/-- Source `itemOfList` (lines 247-254); `index` is the value of
`Cast.toListIndex(INDEX, list.value.length)`. -/
def itemOfList (s : Store) (index : ListIndex) : Value :=
  if index = .LIST_INVALID then
    .string ""
  else
    elementAt s.list.value.items index

/-- The loop of `itemNumOfList` (lines 262-266) from position `i` on, `rest`
being the elements at positions `i, i + 1, ...`. -/
def itemNumOfList.scan (compare : Value → Value → Int) (ITEM : Value) :
    List Value → Nat → Nat
  | [], _ => 0
  | v :: rest, i => if compare v ITEM = 0 then i + 1 else itemNumOfList.scan compare ITEM rest (i + 1)

/-- Source `itemNumOfList` (lines 256-280); `compare` is `Cast.compare`. -/
def itemNumOfList (compare : Value → Value → Int) (s : Store) (ITEM : Value) : Nat :=
  itemNumOfList.scan compare ITEM s.list.value.items 0

/-- The method `Array.prototype.indexOf(ITEM)` from position `i` on: the first
position whose element is strictly equal to `ITEM`, or -1. -/
def indexOf.scan (ITEM : Value) : List Value → Nat → Int
  | [], _ => -1
  | v :: rest, i => if v.strictEquals ITEM then (i : Int) else indexOf.scan ITEM rest (i + 1)

/-- The method `Array.prototype.indexOf(ITEM)`. -/
def indexOf (xs : List Value) (ITEM : Value) : Int :=
  indexOf.scan ITEM xs 0

/-- The comparator loop of `listContainsItem` (lines 294-298). -/
def listContainsItem.scan (compare : Value → Value → Int) (ITEM : Value) : List Value → Bool
  | [] => false
  | v :: rest => if compare v ITEM = 0 then true else listContainsItem.scan compare ITEM rest

/-- Source `listContainsItem` (lines 287-300); `compare` is `Cast.compare`. -/
def listContainsItem (compare : Value → Value → Int) (s : Store) (ITEM : Value) : Bool :=
  if indexOf s.list.value.items ITEM ≥ 0 then
    true
  else
    listContainsItem.scan compare ITEM s.list.value.items

/-- Modelled from the spec: the decimal digits of a numeric string, read as a
natural number; `none` when a character is not a digit. -/
def Cast.parseDigits : List Char → Nat → Option Nat
  | [], acc => some acc
  | c :: rest, acc =>
    if 48 ≤ c.toNat ∧ c.toNat ≤ 57 then Cast.parseDigits rest (acc * 10 + (c.toNat - 48))
    else none

/-- Modelled from the spec: the number a value stands for in a comparison of
`util/cast`, `none` being `NaN`. The numeric strings recognised are the
decimal integers with an optional minus sign; booleans count as 1 and 0. -/
def Cast.numberOf : Value → Option Int
  | .number n => some n
  | .nan => none
  | .boolean b => some (if b then 1 else 0)
  | .undefined => none
  | .string s =>
    match s.data with
    | [] => none
    | '-' :: c :: rest => (Cast.parseDigits (c :: rest) 0).map (fun n => -(n : Int))
    | cs => (Cast.parseDigits cs 0).map (fun n => (n : Int))

/-- Modelled from the spec: `String(v).toLowerCase()` as a list of characters. -/
def Cast.lowerChars (v : Value) : List Char :=
  (match v with
    | .string s => s
    | .undefined => "undefined"
    | w => w.joinString).data.map Char.toLower

/-- Modelled from the spec: `Cast.compare` of `util/cast`, which is not part of
the sources at hand. A numeric string and its numeric value are equal: when
both operands stand for numbers the result is their difference; otherwise the
operands are compared as strings without regard to case, giving -1, 0 or 1. -/
def Cast.compare (v1 v2 : Value) : Int :=
  match Cast.numberOf v1, Cast.numberOf v2 with
  | some n1, some n2 => n1 - n2
  | _, _ =>
    if Cast.lowerChars v1 < Cast.lowerChars v2 then -1
    else if Cast.lowerChars v2 < Cast.lowerChars v1 then 1
    else 0

/-- The numbers that a `Value` can hold: an integral value or `NaN`. Fractions
and infinities are outside the model, and so is the rounding of JavaScript
arithmetic: no arithmetic is defined on this type. -/
inductive JSNumber where
  | int (n : Int)
  | nan
  deriving DecidableEq, Repr

/-- A number stored as a value. -/
def JSNumber.toValue : JSNumber → Value
  | .int n => .number n
  | .nan => .nan

/-- Modelled from the spec: `Cast.toNumber` of `util/cast`, which is not part
of the sources at hand: the number a value stands for, and 0 for a value that
stands for none. -/
def Cast.toNumber (v : Value) : JSNumber :=
  match Cast.numberOf v with
  | some n => .int n
  | none => .int 0

/-- The fields of a scalar variable used by the blocks. -/
structure Variable where
  name : String
  value : Value
  isCloud : Bool
  deriving DecidableEq, Repr

/-- One call `util.ioQuery(device, func, args)`. -/
structure IoQuery where
  device : String
  func : String
  args : List Value
  deriving DecidableEq, Repr

/-- The scalar variable returned by the resolver (`var`, the source's
`variable`), together with the `util.ioQuery` calls made so far, oldest
first. -/
structure VariableStore where
  var : Variable
  ioQueries : List IoQuery
  deriving DecidableEq, Repr

/-- The call of lines 97 and 111 for the variable `var`:
`util.ioQuery('cloud', 'requestUpdateVariable', [variable.name, variable.value])`. -/
def requestUpdateVariable (var : Variable) : IoQuery :=
  { device := "cloud", func := "requestUpdateVariable",
    args := [.string var.name, var.value] }

/-- Source `setVariable` (lines 91-100). -/
def setVariable (s : VariableStore) (VALUE : Value) : VariableStore :=
  if !(s.var.value.strictEquals VALUE) then
    let var : Variable := { s.var with value := VALUE }
    if var.isCloud then
      { var := var, ioQueries := s.ioQueries ++ [requestUpdateVariable var] }
    else
      { s with var := var }
  else
    s

/-- Source `changeVariableBy` (lines 102-114); `toNumber` is `Cast.toNumber` and
`plus` is the operator `+` of line 107 on two numbers. That operator is the
addition of IEEE-754 doubles; it is an argument because its rounding is not
modelled. -/
def changeVariableBy (toNumber : Value → JSNumber) (plus : JSNumber → JSNumber → JSNumber)
    (s : VariableStore) (VALUE : Value) : VariableStore :=
  let dValue := toNumber VALUE
  if dValue ≠ .int 0 then
    let castedValue := toNumber s.var.value
    let newValue := plus castedValue dValue
    let var : Variable := { s.var with value := newValue.toValue }
    if var.isCloud then
      { var := var, ioQueries := s.ioQueries ++ [requestUpdateVariable var] }
    else
      { s with var := var }
  else
    s

/-- A cloud variable named `score` holding 10, with no query sent yet. -/
def cloudStore : VariableStore :=
  { var := { name := "score", value := .number 10, isCloud := true },
    ioQueries := [] }

/-- A list at capacity: 200000 cells holding the number 0, monitor flag set. -/
def fullStore : Store :=
  { list := { value := { ref := 0, items := List.replicate 200000 (.number 0) },
              _monitorUpToDate := true },
    nextRef := 1 }

/-- A short list `[4, 7, "123"]` whose monitor flag is set. -/
def smallStore : Store :=
  { list := { value := { ref := 0, items := [.number 4, .number 7, .string "123"] },
              _monitorUpToDate := true },
    nextRef := 1 }

/-- The list `[4, 7, "123"]` with the monitor flag cleared, as after a
mutation that no monitor has read yet. -/
def staleStore : Store :=
  { list := { value := { ref := 0, items := [.number 4, .number 7, .string "123"] },
              _monitorUpToDate := false },
    nextRef := 1 }

/-- Identity of the array a monitor-mode read returned. -/
def Contents.ref? : Contents → Option Nat
  | .array a => some a.ref
  | .text _ => none

/-- A monitor-mode read, then `mutation`, then the next monitor-mode read:
the result of the read before, the result of the read after, and the store
after that last read. -/
def readMutateRead (mutation : Store → Store) (s : Store) : Contents × Contents × Store :=
  let before := getListContents s true
  let after := getListContents (mutation before.2) true
  (before.1, after.1, after.2)

/-! ## Facts about `splice` -/

theorem splice.actualStart_le (len : Nat) (start : Int) :
    splice.actualStart len start ≤ len := by
  unfold splice.actualStart
  split <;> omega

theorem splice.actualStart_natCast (len k : Nat) (h : k ≤ len) :
    splice.actualStart len (k : Int) = k := by
  unfold splice.actualStart
  split <;> omega

theorem length_splice (xs : List Value) (start : Int) (d : Nat) (items : List Value) :
    (splice xs start d items).length =
      xs.length - min d (xs.length - splice.actualStart xs.length start) + items.length := by
  have h := splice.actualStart_le xs.length start
  simp only [splice, List.length_append, List.length_take, List.length_drop]
  omega

theorem splice_natCast (xs : List Value) (k d : Nat) (items : List Value) (h : k ≤ xs.length) :
    splice xs (k : Int) d items = xs.take k ++ items ++ xs.drop (k + min d (xs.length - k)) := by
  simp only [splice, splice.actualStart_natCast xs.length k h]

theorem take_cons_drop_eq_insertIdx (x : Value) :
    ∀ (k : Nat) (xs : List Value), k ≤ xs.length → xs.take k ++ x :: xs.drop k = xs.insertIdx k x
  | 0, xs, _ => by simp
  | k + 1, [], h => by simp at h
  | k + 1, y :: ys, h => by
    have ih := take_cons_drop_eq_insertIdx x k ys (by simpa using h)
    simp [List.insertIdx_succ_cons, ih]

theorem splice_insert (xs : List Value) (k : Nat) (x : Value) (h : k ≤ xs.length) :
    splice xs (k : Int) 0 [x] = xs.insertIdx k x := by
  rw [splice_natCast xs k 0 [x] h, ← take_cons_drop_eq_insertIdx x k xs h]
  simp

theorem splice_delete (xs : List Value) (k : Nat) (h : k < xs.length) :
    splice xs (k : Int) 1 [] = xs.eraseIdx k := by
  rw [splice_natCast xs k 1 [] (Nat.le_of_lt h), List.eraseIdx_eq_take_drop_succ]
  have : min 1 (xs.length - k) = 1 := by omega
  simp [this]

theorem splice_replace (xs : List Value) (k : Nat) (x : Value) (h : k < xs.length) :
    splice xs (k : Int) 1 [x] = xs.set k x := by
  rw [splice_natCast xs k 1 [x] (Nat.le_of_lt h), List.set_eq_take_append_cons_drop]
  have : min 1 (xs.length - k) = 1 := by omega
  simp [this, h]

/-! ## Length cap and insertion -/

theorem lengthOfList_fullStore : lengthOfList fullStore = LIST_ITEM_LIMIT :=
  List.length_replicate 200000 (Value.number 0)

theorem insertAtList_fullStore_tail (x : Value) :
    insertAtList fullStore (.index 200001) x = fullStore := by
  simp [insertAtList, ListIndex.gtLimit, LIST_ITEM_LIMIT]

theorem wellFormed_preserved (s : Store) (h : s.WellFormed) (index : ListIndex) (ITEM : Value)
    (updateMonitor : Bool) :
    (getListContents s updateMonitor).2.WellFormed ∧ (addToList s ITEM).WellFormed ∧
    (deleteOfList s index).WellFormed ∧ (deleteAllOfList s).WellFormed ∧
    (insertAtList s index ITEM).WellFormed ∧ (replaceItemOfList s index ITEM).WellFormed := by
  unfold Store.WellFormed at h
  refine ⟨?_, ?_, ?_, ?_, ?_, ?_⟩
  · unfold getListContents Store.WellFormed
    split_ifs
    · exact h
    · exact Nat.lt_succ_of_lt h
    · exact h
    · exact h
  · unfold addToList Store.WellFormed
    split_ifs <;> simpa using h
  · unfold deleteOfList Store.WellFormed
    split_ifs
    · exact h
    · exact Nat.lt_succ_self _
    · exact h
  · simp [deleteAllOfList, Store.WellFormed]
  · unfold insertAtList Store.WellFormed
    split_ifs <;> simpa using h
  · unfold replaceItemOfList Store.WellFormed
    split_ifs <;> simpa using h

theorem lengthOfList_insertAtList_le (s : Store) (index : ListIndex) (ITEM : Value)
    (hcap : lengthOfList s ≤ LIST_ITEM_LIMIT) :
    lengthOfList (insertAtList s index ITEM) ≤ LIST_ITEM_LIMIT := by
  unfold insertAtList
  split
  · exact hcap
  · split
    · exact hcap
    · simp only [lengthOfList]
      split
      · rename_i h
        rw [List.length_dropLast, length_splice]
        simp only [lengthOfList] at hcap
        simp only [List.length_singleton]
        omega
      · omega

/-- C1: a list of at most `LIST_ITEM_LIMIT` (200000) cells still has at most
200000 cells after `addToList`, `deleteOfList`, `deleteAllOfList` and
`insertAtList` with any item and any index value, and after `replaceItemOfList`
with any item and any value `Cast.toListIndex` can return for the list. -/
theorem list_length_cap (s : Store) (ITEM : Value) (index replaceIndex : ListIndex)
    (hcap : lengthOfList s ≤ LIST_ITEM_LIMIT)
    (hreplace : replaceIndex.resultFor (lengthOfList s)) :
    lengthOfList (addToList s ITEM) ≤ LIST_ITEM_LIMIT ∧
    lengthOfList (deleteOfList s index) ≤ LIST_ITEM_LIMIT ∧
    lengthOfList (deleteAllOfList s) ≤ LIST_ITEM_LIMIT ∧
    lengthOfList (insertAtList s index ITEM) ≤ LIST_ITEM_LIMIT ∧
    lengthOfList (replaceItemOfList s replaceIndex ITEM) ≤ LIST_ITEM_LIMIT := by
  have hcap0 : s.list.value.items.length ≤ LIST_ITEM_LIMIT := hcap
  refine ⟨?_, ?_, ?_, lengthOfList_insertAtList_le s index ITEM hcap, ?_⟩
  · unfold addToList
    split
    · simp only [lengthOfList, List.length_append, List.length_singleton]
      omega
    · exact hcap
  · unfold deleteOfList
    split
    · exact hcap
    · split
      · simp [lengthOfList]
      · simp only [lengthOfList, length_splice, List.length_nil]
        omega
  · simp [deleteAllOfList, lengthOfList]
  · unfold replaceItemOfList
    split
    · exact hcap
    · rename_i hne
      simp only [lengthOfList, length_splice, List.length_singleton]
      cases replaceIndex with
      | LIST_INVALID => exact absurd rfl hne
      | LIST_ALL =>
        have h0 : splice.actualStart s.list.value.items.length (ListIndex.minusOne .LIST_ALL) = 0 := by
          simp [ListIndex.minusOne, splice.actualStart]
        rw [h0]
        simp only [LIST_ITEM_LIMIT] at hcap0 ⊢
        omega
      | index n =>
        obtain ⟨h1, h2⟩ : 1 ≤ n ∧ n ≤ ((lengthOfList s : Nat) : Int) := hreplace
        simp only [lengthOfList] at h2
        have hs : splice.actualStart s.list.value.items.length (ListIndex.minusOne (.index n))
            = (n - 1).toNat := by
          simp only [ListIndex.minusOne, splice.actualStart]
          split <;> omega
        rw [hs]
        omega

theorem list_length_cap_witness :
    lengthOfList smallStore ≤ LIST_ITEM_LIMIT ∧
    (ListIndex.index 2).resultFor (lengthOfList smallStore) ∧
    lengthOfList (addToList smallStore (.string "a")) ≤ LIST_ITEM_LIMIT ∧
    lengthOfList (deleteOfList smallStore .LIST_ALL) ≤ LIST_ITEM_LIMIT ∧
    lengthOfList (deleteAllOfList smallStore) ≤ LIST_ITEM_LIMIT ∧
    lengthOfList (insertAtList smallStore .LIST_ALL (.string "a")) ≤ LIST_ITEM_LIMIT ∧
    lengthOfList (replaceItemOfList smallStore (.index 2) (.string "a")) ≤ LIST_ITEM_LIMIT :=
  ⟨by decide, by decide,
    list_length_cap smallStore (.string "a") .LIST_ALL (.index 2) (by decide) (by decide)⟩

theorem insertAtList_items_of_le (s : Store) (x : Value) (i : Nat)
    (h1 : 1 ≤ i) (h2 : i ≤ lengthOfList s + 1) (h3 : i ≤ LIST_ITEM_LIMIT) :
    (insertAtList s (.index i) x).list.value.items =
      if lengthOfList s + 1 > LIST_ITEM_LIMIT
      then (s.list.value.items.insertIdx (i - 1) x).dropLast
      else s.list.value.items.insertIdx (i - 1) x := by
  have hk : i - 1 ≤ s.list.value.items.length := by
    simp only [lengthOfList] at h2
    omega
  have hcast : ((i : Int) - 1) = ((i - 1 : Nat) : Int) := by omega
  have hgt : ListIndex.gtLimit (.index (i : Int)) = false := by
    simp only [ListIndex.gtLimit, decide_eq_false_iff_not]
    omega
  have hsp : splice s.list.value.items (ListIndex.minusOne (.index (i : Int))) 0 [x]
      = s.list.value.items.insertIdx (i - 1) x := by
    simp only [ListIndex.minusOne]
    rw [hcast, splice_insert _ _ _ hk]
  have hlen : (s.list.value.items.insertIdx (i - 1) x).length = lengthOfList s + 1 :=
    List.length_insertIdx _ _ hk
  simp only [insertAtList, hgt, hsp, hlen]
  simp

theorem dropLast_insertIdx (x : Value) :
    ∀ (k : Nat) (xs : List Value), k < xs.length →
      (xs.insertIdx k x).dropLast = xs.dropLast.insertIdx k x
  | 0, [], h => by simp at h
  | 0, y :: ys, _ => by simp [List.dropLast]
  | k + 1, [], h => by simp at h
  | k + 1, [y], h => by simp at h
  | k + 1, y :: z :: zs, h => by
    have ih := dropLast_insertIdx x k (z :: zs) (by simpa using h)
    have hne : (z :: zs).insertIdx k x ≠ [] := by
      intro hnil
      have hl := List.length_insertIdx k (z :: zs) (a := x) (by simp at h ⊢; omega)
      simp [hnil] at hl
    rw [List.insertIdx_succ_cons, List.dropLast_cons_of_ne_nil hne, ih]
    simp [List.insertIdx_succ_cons]

/-- C2: when the list holds exactly 200000 cells and the insert index `i` is
within `1 .. 200001`, `insertAtList` leaves 200000 cells, and they are the list
obtained by inserting the item before position `i` and then removing the last
cell of that 200001-cell list; for `i ≤ 200000` this is the old list without
its last cell, with the item inserted at position `i`, where it can be read. -/
theorem insertAtList_overflow (s : Store) (x : Value) (i : Nat)
    (hlen : lengthOfList s = LIST_ITEM_LIMIT) (h1 : 1 ≤ i) (h2 : i ≤ LIST_ITEM_LIMIT + 1) :
    lengthOfList (insertAtList s (.index i) x) = LIST_ITEM_LIMIT ∧
    (insertAtList s (.index i) x).list.value.items =
      (s.list.value.items.insertIdx (i - 1) x).dropLast ∧
    (i ≤ LIST_ITEM_LIMIT →
      (insertAtList s (.index i) x).list.value.items =
        s.list.value.items.dropLast.insertIdx (i - 1) x ∧
      (insertAtList s (.index i) x).list.value.items[i - 1]? = some x) := by
  have hlen0 : s.list.value.items.length = LIST_ITEM_LIMIT := hlen
  have hitems : (insertAtList s (.index i) x).list.value.items =
      (s.list.value.items.insertIdx (i - 1) x).dropLast := by
    by_cases h3 : i ≤ LIST_ITEM_LIMIT
    · rw [insertAtList_items_of_le s x i h1 (by omega) h3, if_pos (by omega)]
    · have hi : i - 1 = s.list.value.items.length := by omega
      have hgt : ListIndex.gtLimit (.index (i : Int)) = true := by
        simp only [ListIndex.gtLimit, decide_eq_true_eq]
        omega
      simp only [insertAtList, hgt]
      rw [hi, List.insertIdx_length_self]
      simp
  have hlenIns : (s.list.value.items.insertIdx (i - 1) x).length = LIST_ITEM_LIMIT + 1 := by
    rw [List.length_insertIdx _ _ (by omega), hlen0]
  refine ⟨?_, hitems, ?_⟩
  · simp only [lengthOfList, hitems, List.length_dropLast, hlenIns]
    omega
  · intro h3
    have hk : i - 1 < s.list.value.items.length := by omega
    have heq := dropLast_insertIdx x (i - 1) s.list.value.items hk
    refine ⟨hitems.trans heq, ?_⟩
    rw [hitems, heq]
    have hk2 : i - 1 ≤ s.list.value.items.dropLast.length := by
      rw [List.length_dropLast]
      omega
    have hlt : i - 1 < (s.list.value.items.dropLast.insertIdx (i - 1) x).length := by
      rw [List.length_insertIdx _ _ hk2]
      omega
    rw [List.getElem?_eq_getElem hlt, List.getElem_insertIdx_self _ _ _ hk2]

theorem insertAtList_overflow_witness :
    lengthOfList fullStore = LIST_ITEM_LIMIT ∧ 1 ≤ 5 ∧ 5 ≤ LIST_ITEM_LIMIT + 1 ∧
    lengthOfList (insertAtList fullStore (.index (5 : Nat)) (.string "x")) = LIST_ITEM_LIMIT ∧
    (insertAtList fullStore (.index (5 : Nat)) (.string "x")).list.value.items =
      (fullStore.list.value.items.insertIdx (5 - 1) (.string "x")).dropLast ∧
    (5 ≤ LIST_ITEM_LIMIT →
      (insertAtList fullStore (.index (5 : Nat)) (.string "x")).list.value.items =
        fullStore.list.value.items.dropLast.insertIdx (5 - 1) (.string "x") ∧
      (insertAtList fullStore (.index (5 : Nat)) (.string "x")).list.value.items[5 - 1]?
        = some (.string "x")) :=
  ⟨lengthOfList_fullStore, by decide, by decide,
    insertAtList_overflow fullStore (.string "x") 5 lengthOfList_fullStore (by decide) (by decide)⟩

/-! ## Insert and read back -/

/-- C3 (as stated, refuted): on a list at capacity the insert index 200001 is
within `1 .. length + 1`, yet `insertAtList` returns at its
`index > LIST_ITEM_LIMIT` guard, and reading position 200001 afterwards gives
`undefined` (or the empty string when that index is resolved again and found
invalid), not the inserted item. -/
theorem insert_then_item_at_capacity :
    (1 : Int) ≤ 200001 ∧ (200001 : Int) ≤ (lengthOfList fullStore + 1 : Nat) ∧
    insertAtList fullStore (.index 200001) (.number 1) = fullStore ∧
    itemOfList (insertAtList fullStore (.index 200001) (.number 1)) (.index 200001)
      = .undefined ∧
    itemOfList (insertAtList fullStore (.index 200001) (.number 1)) .LIST_INVALID
      = .string "" ∧
    itemOfList (insertAtList fullStore (.index 200001) (.number 1)) (.index 200001)
      ≠ .number 1 := by
  have hins : insertAtList fullStore (.index 200001) (.number 1) = fullStore :=
    insertAtList_fullStore_tail (.number 1)
  have hread : itemOfList fullStore (.index 200001) = .undefined := by
    have hnone : fullStore.list.value.items[200000]? = none :=
      List.getElem?_eq_none (by rw [show fullStore.list.value.items.length = 200000 from
        lengthOfList_fullStore])
    simp [itemOfList, elementAt, hnone]
  refine ⟨by decide, ?_, hins, ?_, ?_, ?_⟩
  · rw [lengthOfList_fullStore]
    decide
  · rw [hins, hread]
  · simp [itemOfList]
  · rw [hins, hread]
    decide

/-- C3 (amended): for every list, every item and every insert index `i` within
`1 .. length + 1` that does not exceed `LIST_ITEM_LIMIT`, after `insertAtList`
the index `i` is in range for the new list and `itemOfList` at `i` returns the
inserted item. -/
theorem insert_then_item (s : Store) (x : Value) (i : Nat)
    (h1 : 1 ≤ i) (h2 : i ≤ lengthOfList s + 1) (h3 : i ≤ LIST_ITEM_LIMIT) :
    (ListIndex.index i).resultFor (lengthOfList (insertAtList s (.index i) x)) ∧
    itemOfList (insertAtList s (.index i) x) (.index i) = x := by
  have hk : i - 1 ≤ s.list.value.items.length := by
    simp only [lengthOfList] at h2
    omega
  have hitems := insertAtList_items_of_le s x i h1 h2 h3
  have hget : (insertAtList s (.index i) x).list.value.items[i - 1]? = some x := by
    rw [hitems]
    split
    · rename_i hover
      have hlt : i - 1 < s.list.value.items.length := by
        simp only [lengthOfList] at hover
        omega
      rw [dropLast_insertIdx x (i - 1) _ hlt]
      have hk2 : i - 1 ≤ s.list.value.items.dropLast.length := by
        rw [List.length_dropLast]
        omega
      have hlt2 : i - 1 < (s.list.value.items.dropLast.insertIdx (i - 1) x).length := by
        rw [List.length_insertIdx _ _ hk2]
        omega
      rw [List.getElem?_eq_getElem hlt2, List.getElem_insertIdx_self _ _ _ hk2]
    · have hlt2 : i - 1 < (s.list.value.items.insertIdx (i - 1) x).length := by
        rw [List.length_insertIdx _ _ hk]
        omega
      rw [List.getElem?_eq_getElem hlt2, List.getElem_insertIdx_self _ _ _ hk]
  have hlen : i ≤ lengthOfList (insertAtList s (.index i) x) := by
    have hsome := List.getElem?_eq_some.mp hget
    obtain ⟨hlt, _⟩ := hsome
    simp only [lengthOfList]
    omega
  refine ⟨⟨by omega, by exact_mod_cast hlen⟩, ?_⟩
  have hidx : ((i : Int) - 1).toNat = i - 1 := by omega
  have hpos : (1 : Int) ≤ (i : Int) := by omega
  simp [itemOfList, elementAt, hpos, hidx, hget]

theorem insert_then_item_witness :
    1 ≤ 2 ∧ 2 ≤ lengthOfList smallStore + 1 ∧ 2 ≤ LIST_ITEM_LIMIT ∧
    (ListIndex.index (2 : Nat)).resultFor
      (lengthOfList (insertAtList smallStore (.index (2 : Nat)) (.string "x"))) ∧
    itemOfList (insertAtList smallStore (.index (2 : Nat)) (.string "x")) (.index (2 : Nat))
      = .string "x" :=
  ⟨by decide, by decide, by decide,
    insert_then_item smallStore (.string "x") 2 (by decide) (by decide) (by decide)⟩

/-! ## Appending at capacity -/

/-- C4: on a list of exactly 200000 cells `addToList` changes nothing: the
cells, the array identity and the `_monitorUpToDate` flag stay as they were. -/
theorem addToList_at_capacity (s : Store) (x : Value)
    (hlen : lengthOfList s = LIST_ITEM_LIMIT) :
    addToList s x = s := by
  have hlen0 : s.list.value.items.length = LIST_ITEM_LIMIT := hlen
  simp [addToList, hlen0]

theorem addToList_at_capacity_witness :
    lengthOfList fullStore = LIST_ITEM_LIMIT ∧
    addToList fullStore (.string "x") = fullStore :=
  ⟨lengthOfList_fullStore, addToList_at_capacity fullStore (.string "x") lengthOfList_fullStore⟩

/-! ## Searching a list -/

theorem itemNumOfList.scan_spec (compare : Value → Value → Int) (x : Value) :
    ∀ (l : List Value) (i : Nat),
      (itemNumOfList.scan compare x l i = 0 ↔ ∀ e ∈ l, compare e x ≠ 0) ∧
      (itemNumOfList.scan compare x l i ≠ 0 →
        i + 1 ≤ itemNumOfList.scan compare x l i ∧
        itemNumOfList.scan compare x l i ≤ i + l.length ∧
        (∃ e, l[itemNumOfList.scan compare x l i - (i + 1)]? = some e ∧ compare e x = 0) ∧
        ∀ j e, j < itemNumOfList.scan compare x l i - (i + 1) → l[j]? = some e →
          compare e x ≠ 0)
  | [], i => by simp [itemNumOfList.scan]
  | v :: rest, i => by
    obtain ⟨ih0, ih1⟩ := itemNumOfList.scan_spec compare x rest (i + 1)
    by_cases hv : compare v x = 0
    · simp [itemNumOfList.scan, hv]
    · simp only [itemNumOfList.scan, hv, if_false]
      refine ⟨?_, ?_⟩
      · rw [ih0]
        simp [hv]
      · intro hne
        obtain ⟨hlo, hhi, ⟨e, he, hce⟩, hbefore⟩ := ih1 hne
        have hpos : itemNumOfList.scan compare x rest (i + 1) - (i + 1)
            = (itemNumOfList.scan compare x rest (i + 1) - (i + 1 + 1)) + 1 := by omega
        refine ⟨by omega, by simp only [List.length_cons]; omega, ⟨e, ?_, hce⟩, ?_⟩
        · rw [hpos, List.getElem?_cons_succ]
          exact he
        · intro j e2 hj hget
          cases j with
          | zero =>
            simp only [List.getElem?_cons_zero, Option.some.injEq] at hget
            rw [← hget]
            exact hv
          | succ k =>
            rw [List.getElem?_cons_succ] at hget
            exact hbefore k e2 (by omega) hget

/-- C5: `itemNumOfList` returns the first match of the comparator. The result
is 0 exactly when no cell compares equal to the item; otherwise it lies within
`1 .. length`, the cell at that 1-based position compares equal to the item,
and no earlier cell does. For the list `[4, 7, "123"]` and the item 123 the
result is 3 with any comparator that tells 4 and 7 from 123 and takes the
string "123" for 123. -/
theorem itemNumOfList_first_match (compare : Value → Value → Int) (s : Store) (x : Value) :
    (itemNumOfList compare s x = 0 ↔ ∀ e ∈ s.list.value.items, compare e x ≠ 0) ∧
    (itemNumOfList compare s x ≠ 0 →
      1 ≤ itemNumOfList compare s x ∧
      itemNumOfList compare s x ≤ lengthOfList s ∧
      (∃ e, s.list.value.items[itemNumOfList compare s x - 1]? = some e ∧ compare e x = 0) ∧
      ∀ j e, j < itemNumOfList compare s x - 1 → s.list.value.items[j]? = some e →
        compare e x ≠ 0) ∧
    (compare (.number 4) (.number 123) ≠ 0 → compare (.number 7) (.number 123) ≠ 0 →
      compare (.string "123") (.number 123) = 0 →
      itemNumOfList compare smallStore (.number 123) = 3) := by
  obtain ⟨h0, h1⟩ := itemNumOfList.scan_spec compare x s.list.value.items 0
  refine ⟨h0, ?_, ?_⟩
  · intro hne
    obtain ⟨hlo, hhi, hat, hbefore⟩ := h1 hne
    refine ⟨hlo, ?_, hat, hbefore⟩
    simp only [lengthOfList]
    simp only [itemNumOfList]
    omega
  · intro h4 h7 h123
    simp [itemNumOfList, smallStore, itemNumOfList.scan, h4, h7, h123]

theorem itemNumOfList_first_match_witness :
    Cast.compare (.number 4) (.number 123) ≠ 0 ∧ Cast.compare (.number 7) (.number 123) ≠ 0 ∧
    Cast.compare (.string "123") (.number 123) = 0 ∧
    itemNumOfList Cast.compare smallStore (.number 123) = 3 :=
  ⟨by decide, by decide, by decide,
    (itemNumOfList_first_match Cast.compare smallStore (.number 123)).2.2
      (by decide) (by decide) (by decide)⟩

theorem indexOf.scan_nonneg_iff (x : Value) :
    ∀ (l : List Value) (i : Nat),
      (indexOf.scan x l i ≥ 0 ↔ ∃ e ∈ l, e.strictEquals x = true)
  | [], i => by simp [indexOf.scan]
  | v :: rest, i => by
    have ih := indexOf.scan_nonneg_iff x rest (i + 1)
    by_cases hv : v.strictEquals x = true
    · simp [indexOf.scan, hv]
    · have hf : v.strictEquals x = false := by simpa using hv
      simp only [indexOf.scan, hf, Bool.false_eq_true, if_false]
      rw [ih]
      simp [hf]

theorem listContainsItem.scan_iff (compare : Value → Value → Int) (x : Value) :
    ∀ (l : List Value),
      (listContainsItem.scan compare x l = true ↔ ∃ e ∈ l, compare e x = 0)
  | [] => by simp [listContainsItem.scan]
  | v :: rest => by
    have ih := listContainsItem.scan_iff compare x rest
    by_cases hv : compare v x = 0
    · simp [listContainsItem.scan, hv]
    · simp only [listContainsItem.scan, hv, if_false]
      rw [ih]
      simp [hv]

/-- C6: `listContainsItem` returns true if and only if some cell is strictly
equal (`===`) to the item or some cell compares equal to it with
`Cast.compare`, and false otherwise; on an empty list it returns false. -/
theorem listContainsItem_iff (compare : Value → Value → Int) (s : Store) (x : Value) :
    (listContainsItem compare s x = true ↔
      (∃ e ∈ s.list.value.items, e.strictEquals x = true) ∨
      (∃ e ∈ s.list.value.items, compare e x = 0)) ∧
    (listContainsItem compare s x = false ↔
      ¬ ((∃ e ∈ s.list.value.items, e.strictEquals x = true) ∨
        (∃ e ∈ s.list.value.items, compare e x = 0))) ∧
    (∀ (ref nextRef : Nat) (flag : Bool),
      listContainsItem compare
        { list := { value := { ref := ref, items := [] }, _monitorUpToDate := flag },
          nextRef := nextRef } x = false) := by
  have hiff : listContainsItem compare s x = true ↔
      (∃ e ∈ s.list.value.items, e.strictEquals x = true) ∨
      (∃ e ∈ s.list.value.items, compare e x = 0) := by
    unfold listContainsItem
    split
    · rename_i h
      have := (indexOf.scan_nonneg_iff x s.list.value.items 0).mp h
      simp only [true_iff]
      exact Or.inl this
    · rename_i h
      have hno : ¬ ∃ e ∈ s.list.value.items, e.strictEquals x = true :=
        fun hex => h ((indexOf.scan_nonneg_iff x s.list.value.items 0).mpr hex)
      rw [listContainsItem.scan_iff]
      constructor
      · exact Or.inr
      · rintro (h1 | h2)
        · exact absurd h1 hno
        · exact h2
  refine ⟨hiff, ?_, ?_⟩
  · rw [← hiff]
    simp
  · intro ref nextRef flag
    simp [listContainsItem, indexOf, indexOf.scan, listContainsItem.scan]

/-! ## The monitor flag -/

/-- C7 (as stated, refuted): on a list at capacity the insert index 200001 is
valid (within `1 .. length + 1`), `insertAtList` returns at its
`index > LIST_ITEM_LIMIT` guard and the flag, true before, is still true; and
`deleteAllOfList` and `deleteOfList` with the ALL sentinel assign a new empty
array without writing the flag, which stays true. -/
theorem monitor_flag_not_always_cleared :
    (ListIndex.index 200001).resultFor (lengthOfList fullStore + 1) ∧
    fullStore.list._monitorUpToDate = true ∧
    (insertAtList fullStore (.index 200001) (.number 1)).list._monitorUpToDate = true ∧
    smallStore.list._monitorUpToDate = true ∧
    (deleteAllOfList smallStore).list._monitorUpToDate = true ∧
    (deleteOfList smallStore .LIST_ALL).list._monitorUpToDate = true := by
  refine ⟨?_, rfl, ?_, rfl, rfl, rfl⟩
  · rw [lengthOfList_fullStore]
    decide
  · rw [insertAtList_fullStore_tail]
    rfl

/-- C7 (amended): whatever the flag was before, `_monitorUpToDate` is false
after `addToList` below the cap, after `deleteOfList` and `replaceItemOfList`
with an index within `1 .. length`, and after `insertAtList` with an index
within `1 .. length + 1` that does not exceed `LIST_ITEM_LIMIT`. -/
theorem mutation_clears_monitor_flag (s : Store) (x : Value) (i : Nat) :
    (lengthOfList s < LIST_ITEM_LIMIT → (addToList s x).list._monitorUpToDate = false) ∧
    (1 ≤ i ∧ i ≤ lengthOfList s →
      (deleteOfList s (.index i)).list._monitorUpToDate = false ∧
      (replaceItemOfList s (.index i) x).list._monitorUpToDate = false) ∧
    (1 ≤ i ∧ i ≤ lengthOfList s + 1 ∧ i ≤ LIST_ITEM_LIMIT →
      (insertAtList s (.index i) x).list._monitorUpToDate = false) := by
  refine ⟨?_, ?_, ?_⟩
  · intro h
    have h0 : s.list.value.items.length < LIST_ITEM_LIMIT := h
    simp [addToList, h0]
  · intro _
    simp [deleteOfList, replaceItemOfList]
  · rintro ⟨_, _, h3⟩
    have hgt : ListIndex.gtLimit (.index (i : Int)) = false := by
      simp only [ListIndex.gtLimit, decide_eq_false_iff_not]
      omega
    simp [insertAtList, hgt]

theorem mutation_clears_monitor_flag_witness :
    lengthOfList smallStore < LIST_ITEM_LIMIT ∧
    (1 ≤ 2 ∧ 2 ≤ lengthOfList smallStore) ∧
    (1 ≤ 2 ∧ 2 ≤ lengthOfList smallStore + 1 ∧ 2 ≤ LIST_ITEM_LIMIT) ∧
    smallStore.list._monitorUpToDate = true ∧
    (addToList smallStore (.string "x")).list._monitorUpToDate = false ∧
    (deleteOfList smallStore (.index (2 : Nat))).list._monitorUpToDate = false ∧
    (replaceItemOfList smallStore (.index (2 : Nat)) (.string "x")).list._monitorUpToDate
      = false ∧
    (insertAtList smallStore (.index (2 : Nat)) (.string "x")).list._monitorUpToDate = false :=
  have h := mutation_clears_monitor_flag smallStore (.string "x") 2
  ⟨by decide, by decide, by decide, rfl, h.1 (by decide), (h.2.1 (by decide)).1,
    (h.2.1 (by decide)).2, h.2.2 (by decide)⟩

/-! ## Monitor-mode reads -/

/-- C8 (as stated, refuted): with the flag false, the first monitor-mode read
returns a new copy (identity 1) and the second, with no mutation in between,
returns the backing array (identity 0): two different objects. -/
theorem consecutive_monitor_reads_differ :
    staleStore.list._monitorUpToDate = false ∧
    (getListContents staleStore true).1.ref? = some 1 ∧
    (getListContents (getListContents staleStore true).2 true).1.ref? = some 0 ∧
    (getListContents staleStore true).1.ref? ≠
      (getListContents (getListContents staleStore true).2 true).1.ref? := by
  decide

/-- C8 (amended): when `_monitorUpToDate` is true, two consecutive monitor-mode
reads with no mutation in between return the identical array, the list's
backing array, and leave the store as it was. When the flag is false, the first
read returns a new array with the same cells and sets the flag; the second read
returns the backing array, which is a different object from that copy whenever
the backing array is an object that already exists (`Store.WellFormed`); and
the reads from the second on return one identical array, the backing array. -/
theorem consecutive_monitor_reads (s : Store) :
    (s.list._monitorUpToDate = true →
      (getListContents s true).1 = .array s.list.value ∧
      (getListContents (getListContents s true).2 true).1 = (getListContents s true).1 ∧
      (getListContents s true).2 = s) ∧
    (s.list._monitorUpToDate = false →
      (getListContents s true).1 = .array { ref := s.nextRef, items := s.list.value.items } ∧
      (getListContents s true).2.list._monitorUpToDate = true ∧
      (getListContents s true).2.list.value = s.list.value) ∧
    (s.WellFormed → s.list._monitorUpToDate = false →
      (getListContents s true).1.ref? = some s.nextRef ∧
      (getListContents (getListContents s true).2 true).1.ref? = some s.list.value.ref ∧
      (getListContents s true).1.ref?
        ≠ (getListContents (getListContents s true).2 true).1.ref? ∧
      (getListContents s true).1 ≠ (getListContents (getListContents s true).2 true).1) ∧
    ((getListContents (getListContents s true).2 true).1 = .array s.list.value ∧
      (getListContents (getListContents (getListContents s true).2 true).2 true).1 =
        (getListContents (getListContents s true).2 true).1) := by
  refine ⟨?_, ?_, ?_, ?_⟩
  · intro hflag
    simp [getListContents, hflag]
  · intro hflag
    simp [getListContents, hflag]
  · intro hwf hflag
    have hlt : s.list.value.ref < s.nextRef := hwf
    have hne : s.nextRef ≠ s.list.value.ref := Nat.ne_of_gt hlt
    have h1 : (getListContents s true).1
        = .array { ref := s.nextRef, items := s.list.value.items } := by
      simp [getListContents, hflag]
    have h2 : (getListContents (getListContents s true).2 true).1 = .array s.list.value := by
      simp [getListContents, hflag]
    rw [h1, h2]
    refine ⟨rfl, rfl, ?_, ?_⟩
    · simp only [Contents.ref?, ne_eq, Option.some.injEq]
      exact hne
    · intro heq
      have href := congrArg Contents.ref? heq
      simp only [Contents.ref?, Option.some.injEq] at href
      exact hne href
  · cases hflag : s.list._monitorUpToDate <;> simp [getListContents, hflag]

theorem consecutive_monitor_reads_witness :
    smallStore.list._monitorUpToDate = true ∧
    staleStore.list._monitorUpToDate = false ∧
    ((getListContents smallStore true).1 = .array smallStore.list.value ∧
      (getListContents (getListContents smallStore true).2 true).1
        = (getListContents smallStore true).1 ∧
      (getListContents smallStore true).2 = smallStore) ∧
    ((getListContents staleStore true).1
        = .array { ref := staleStore.nextRef, items := staleStore.list.value.items } ∧
      (getListContents staleStore true).2.list._monitorUpToDate = true ∧
      (getListContents staleStore true).2.list.value = staleStore.list.value) ∧
    staleStore.WellFormed ∧
    ((getListContents staleStore true).1.ref? = some staleStore.nextRef ∧
      (getListContents (getListContents staleStore true).2 true).1.ref?
        = some staleStore.list.value.ref ∧
      (getListContents staleStore true).1.ref?
        ≠ (getListContents (getListContents staleStore true).2 true).1.ref? ∧
      (getListContents staleStore true).1
        ≠ (getListContents (getListContents staleStore true).2 true).1) :=
  ⟨rfl, rfl, (consecutive_monitor_reads smallStore).1 rfl,
    (consecutive_monitor_reads staleStore).2.1 rfl, by decide,
    (consecutive_monitor_reads staleStore).2.2.1 (by decide) rfl⟩

theorem getListContents_monitor_before (s : Store) (h : s.WellFormed) :
    (∃ r, (getListContents s true).1.ref? = some r ∧ r < (getListContents s true).2.nextRef) ∧
    (getListContents s true).2.WellFormed ∧
    (getListContents s true).2.list.value = s.list.value := by
  unfold Store.WellFormed at h
  cases hflag : s.list._monitorUpToDate <;>
    simp [getListContents, hflag, Contents.ref?, Store.WellFormed] <;> omega

theorem getListContents_monitor_stale (t : Store) (hflag : t.list._monitorUpToDate = false) :
    (getListContents t true).1.ref? = some t.nextRef ∧
    (getListContents t true).2.list.value.ref = t.list.value.ref := by
  simp [getListContents, hflag, Contents.ref?]

theorem getListContents_after_deleteAll (t : Store) (hflag : t.list._monitorUpToDate = true) :
    (getListContents (deleteAllOfList t) true).1.ref? = some t.nextRef ∧
    (getListContents (deleteOfList t .LIST_ALL) true).1.ref? = some t.nextRef := by
  simp [getListContents, deleteAllOfList, deleteOfList, hflag, Contents.ref?]

theorem readMutateRead_fresh (mutation : Store → Store) (s : Store) (h : s.WellFormed)
    (hflag : (mutation (getListContents s true).2).list._monitorUpToDate = false)
    (href : (mutation (getListContents s true).2).list.value.ref
      = (getListContents s true).2.list.value.ref)
    (hnext : (mutation (getListContents s true).2).nextRef = (getListContents s true).2.nextRef) :
    (readMutateRead mutation s).2.1.ref? ≠ (readMutateRead mutation s).1.ref? ∧
    (readMutateRead mutation s).2.1.ref? ≠ some (readMutateRead mutation s).2.2.list.value.ref := by
  obtain ⟨⟨r, hr, hlt⟩, hwf, _⟩ := getListContents_monitor_before s h
  obtain ⟨hafter, hlive⟩ := getListContents_monitor_stale _ hflag
  unfold Store.WellFormed at hwf
  simp only [readMutateRead, hafter, hr, hlive, href, hnext, ne_eq, Option.some.injEq]
  omega

/-- C9 (as stated, refuted): on a list at capacity whose flag is set,
`insertAtList` with the valid index 200001 returns at its guard, and the
monitor-mode read after it returns the same array (identity 0) as the read
before it; and after `deleteAllOfList` on `[4, 7, "123"]` with the flag set,
the next monitor-mode read returns the new backing array itself (identity 1),
not a copy of it. -/
theorem monitor_read_after_mutation_fails :
    ((ListIndex.index 200001).resultFor (lengthOfList fullStore + 1) ∧
      (readMutateRead (fun t => insertAtList t (.index 200001) (.number 1)) fullStore).2.1.ref?
        = (readMutateRead (fun t => insertAtList t (.index 200001) (.number 1)) fullStore).1.ref?) ∧
    ((readMutateRead deleteAllOfList smallStore).2.1.ref? = some 1 ∧
      (readMutateRead deleteAllOfList smallStore).2.2.list.value.ref = 1 ∧
      (readMutateRead deleteAllOfList smallStore).2.1.ref?
        = some (readMutateRead deleteAllOfList smallStore).2.2.list.value.ref) := by
  refine ⟨⟨?_, ?_⟩, by decide⟩
  · rw [lengthOfList_fullStore]
    decide
  · have hread : getListContents fullStore true = (.array fullStore.list.value, fullStore) := by
      have hf : fullStore.list._monitorUpToDate = true := rfl
      simp [getListContents, hf]
    simp only [readMutateRead, hread, insertAtList_fullStore_tail]

/-- C9 (amended): take any list whose backing array exists, a monitor-mode read,
then one of `addToList` below the cap, `deleteOfList` or `replaceItemOfList`
with an index within `1 .. length`, or `insertAtList` with an index within
`1 .. length + 1` not above `LIST_ITEM_LIMIT`. The next monitor-mode read
returns an array that is neither the one the earlier read returned nor the
list's backing array. After `deleteAllOfList`, or `deleteOfList` with the ALL
sentinel, the next read returns an array other than the one returned before. -/
theorem monitor_read_after_mutation (s : Store) (x : Value) (i : Nat) (h : s.WellFormed) :
    (lengthOfList s < LIST_ITEM_LIMIT →
      (readMutateRead (fun t => addToList t x) s).2.1.ref?
        ≠ (readMutateRead (fun t => addToList t x) s).1.ref? ∧
      (readMutateRead (fun t => addToList t x) s).2.1.ref?
        ≠ some (readMutateRead (fun t => addToList t x) s).2.2.list.value.ref) ∧
    (1 ≤ i ∧ i ≤ lengthOfList s →
      ((readMutateRead (fun t => deleteOfList t (.index i)) s).2.1.ref?
        ≠ (readMutateRead (fun t => deleteOfList t (.index i)) s).1.ref? ∧
      (readMutateRead (fun t => deleteOfList t (.index i)) s).2.1.ref?
        ≠ some (readMutateRead (fun t => deleteOfList t (.index i)) s).2.2.list.value.ref) ∧
      ((readMutateRead (fun t => replaceItemOfList t (.index i) x) s).2.1.ref?
        ≠ (readMutateRead (fun t => replaceItemOfList t (.index i) x) s).1.ref? ∧
      (readMutateRead (fun t => replaceItemOfList t (.index i) x) s).2.1.ref?
        ≠ some (readMutateRead (fun t => replaceItemOfList t (.index i) x) s).2.2.list.value.ref)) ∧
    (1 ≤ i ∧ i ≤ lengthOfList s + 1 ∧ i ≤ LIST_ITEM_LIMIT →
      (readMutateRead (fun t => insertAtList t (.index i) x) s).2.1.ref?
        ≠ (readMutateRead (fun t => insertAtList t (.index i) x) s).1.ref? ∧
      (readMutateRead (fun t => insertAtList t (.index i) x) s).2.1.ref?
        ≠ some (readMutateRead (fun t => insertAtList t (.index i) x) s).2.2.list.value.ref) ∧
    ((readMutateRead deleteAllOfList s).2.1.ref? ≠ (readMutateRead deleteAllOfList s).1.ref? ∧
      (readMutateRead (fun t => deleteOfList t .LIST_ALL) s).2.1.ref?
        ≠ (readMutateRead (fun t => deleteOfList t .LIST_ALL) s).1.ref?) := by
  obtain ⟨⟨r, hr, hlt⟩, hwf, hval⟩ := getListContents_monitor_before s h
  refine ⟨?_, ?_, ?_, ?_⟩
  · intro hcap
    have hcap0 : (getListContents s true).2.list.value.items.length < LIST_ITEM_LIMIT := by
      rw [hval]
      exact hcap
    apply readMutateRead_fresh _ s h <;> simp [addToList, hcap0]
  · intro _
    constructor
    · apply readMutateRead_fresh _ s h <;> simp [deleteOfList]
    · apply readMutateRead_fresh _ s h <;> simp [replaceItemOfList]
  · rintro ⟨_, _, h3⟩
    have hgt : ListIndex.gtLimit (.index (i : Int)) = false := by
      simp only [ListIndex.gtLimit, decide_eq_false_iff_not]
      omega
    apply readMutateRead_fresh _ s h <;> simp [insertAtList, hgt]
  · have hflag : (getListContents s true).2.list._monitorUpToDate = true := by
      cases hf : s.list._monitorUpToDate <;> simp [getListContents, hf]
    obtain ⟨hall, hsentinel⟩ := getListContents_after_deleteAll _ hflag
    constructor
    · simp only [readMutateRead, hall, hr, ne_eq, Option.some.injEq]
      omega
    · simp only [readMutateRead, hsentinel, hr, ne_eq, Option.some.injEq]
      omega

theorem monitor_read_after_mutation_witness :
    staleStore.WellFormed ∧ lengthOfList staleStore < LIST_ITEM_LIMIT ∧
    (1 ≤ 2 ∧ 2 ≤ lengthOfList staleStore) ∧
    (readMutateRead (fun t => addToList t (.string "x")) staleStore).2.1.ref?
      ≠ (readMutateRead (fun t => addToList t (.string "x")) staleStore).1.ref? ∧
    (readMutateRead (fun t => deleteOfList t (.index (2 : Nat))) staleStore).2.1.ref?
      ≠ some (readMutateRead (fun t => deleteOfList t (.index (2 : Nat)))
          staleStore).2.2.list.value.ref :=
  have h := monitor_read_after_mutation staleStore (.string "x") 2 (by decide)
  ⟨by decide, by decide, by decide, (h.1 (by decide)).1, (h.2.1 (by decide)).1.2⟩

/-! ## Deleting everything -/

/-- C10: whatever the list held, it is empty (length 0) after `deleteOfList`
with an index that `Cast.toListIndex` resolved to the `LIST_ALL` sentinel, and
after `deleteAllOfList`. -/
theorem delete_all_empties (s : Store) :
    (deleteOfList s .LIST_ALL).list.value.items = [] ∧
    lengthOfList (deleteOfList s .LIST_ALL) = 0 ∧
    (deleteAllOfList s).list.value.items = [] ∧
    lengthOfList (deleteAllOfList s) = 0 := by
  simp [deleteOfList, deleteAllOfList, lengthOfList]

/-! ## Sentinel indices -/

/-- C11: when `Cast.toListIndex` returns `LIST_INVALID`, each of `deleteOfList`,
`insertAtList` and `replaceItemOfList` returns normally and leaves the store as
it was: same cells, same backing array, same `_monitorUpToDate` flag. -/
theorem invalid_index_is_noop (s : Store) (x : Value) :
    deleteOfList s .LIST_INVALID = s ∧
    insertAtList s .LIST_INVALID x = s ∧
    replaceItemOfList s .LIST_INVALID x = s := by
  simp [deleteOfList, insertAtList, replaceItemOfList]

theorem insertAtList_all_sentinel (s : Store) (x : Value)
    (hlt : lengthOfList s < LIST_ITEM_LIMIT) :
    (insertAtList s .LIST_ALL x).list.value.items = x :: s.list.value.items := by
  have hlt0 : s.list.value.items.length < LIST_ITEM_LIMIT := hlt
  have hsp : splice s.list.value.items (ListIndex.minusOne .LIST_ALL) 0 [x]
      = x :: s.list.value.items := by
    have := splice_natCast s.list.value.items 0 0 [x] (Nat.zero_le _)
    simpa [ListIndex.minusOne] using this
  have hnot : ¬ (s.list.value.items.length + 1 > LIST_ITEM_LIMIT) := by omega
  simp [insertAtList, ListIndex.gtLimit, hsp, hnot]

theorem replaceItemOfList_all_sentinel (s : Store) (x : Value) :
    (replaceItemOfList s .LIST_ALL x).list.value.items = x :: s.list.value.items.drop 1 := by
  have hsp : splice s.list.value.items (ListIndex.minusOne .LIST_ALL) 1 [x]
      = x :: s.list.value.items.drop 1 := by
    have h := splice_natCast s.list.value.items 0 1 [x] (Nat.zero_le _)
    cases hl : s.list.value.items with
    | nil => simpa [ListIndex.minusOne, hl] using h
    | cons y ys => simpa [ListIndex.minusOne, hl] using h
  simp [replaceItemOfList, hsp]

/-- C12 (the code at the failing input): `insertAtList` and `replaceItemOfList`
test the index against `LIST_INVALID` only. With the `LIST_ALL` sentinel on the
list `[4, 7, "123"]` and the item 0, `insertAtList` puts the item in front of
the first cell and `replaceItemOfList` overwrites the first cell; on an empty
list `replaceItemOfList` adds a cell. `deleteOfList`, which does test for
`LIST_ALL`, clears the list. -/
theorem all_sentinel_reaches_storage :
    (insertAtList smallStore .LIST_ALL (.number 0)).list.value.items
      = [.number 0, .number 4, .number 7, .string "123"] ∧
    (replaceItemOfList smallStore .LIST_ALL (.number 0)).list.value.items
      = [.number 0, .number 7, .string "123"] ∧
    (replaceItemOfList (deleteAllOfList smallStore) .LIST_ALL (.number 0)).list.value.items
      = [.number 0] ∧
    (deleteOfList smallStore .LIST_ALL).list.value.items = [] := by
  decide

/-! ## Reading a cell -/

/-- C13: `itemOfList` always returns a value. For `LIST_INVALID` it is the empty
string; for an index `i` within `1 .. length` the cell at 0-based position
`i - 1` exists and is the value returned. The function yields a value only and
has no access to write the store. -/
theorem itemOfList_total (s : Store) :
    itemOfList s .LIST_INVALID = .string "" ∧
    (∀ i : Nat, 1 ≤ i → i ≤ lengthOfList s →
      ∃ h : i - 1 < s.list.value.items.length,
        itemOfList s (.index i) = s.list.value.items[i - 1]) := by
  refine ⟨by simp [itemOfList], ?_⟩
  intro i h1 h2
  have hlt : i - 1 < s.list.value.items.length := by
    simp only [lengthOfList] at h2
    omega
  refine ⟨hlt, ?_⟩
  have hidx : ((i : Int) - 1).toNat = i - 1 := by omega
  have hpos : (1 : Int) ≤ (i : Int) := by omega
  simp [itemOfList, elementAt, hpos, hidx, List.getElem?_eq_getElem hlt]

theorem itemOfList_total_witness :
    1 ≤ 3 ∧ 3 ≤ lengthOfList smallStore ∧
    itemOfList smallStore (.index (3 : Nat)) = .string "123" :=
  ⟨by decide, by decide,
    ((itemOfList_total smallStore).2 3 (by decide) (by decide)).choose_spec⟩

/-! ## Reporter-mode contents -/

theorem allSingleLetters_iff :
    ∀ l : List Value,
      allSingleLetters l = true ↔ ∀ v ∈ l, ∃ str, v = .string str ∧ jsLength str = 1
  | [] => by simp [allSingleLetters]
  | .string s :: rest => by
    have ih := allSingleLetters_iff rest
    by_cases hs : jsLength s = 1
    · simp [allSingleLetters, hs, ih]
    · simp [allSingleLetters, hs]
  | .number n :: rest => by simp [allSingleLetters]
  | .nan :: rest => by simp [allSingleLetters]
  | .boolean b :: rest => by simp [allSingleLetters]
  | .undefined :: rest => by simp [allSingleLetters]

theorem intercalate_go_eq_join (separator : String) :
    ∀ (rest : List Value) (w : Value) (acc : String),
      String.intercalate.go acc separator ((w :: rest).map Value.joinString)
        = acc ++ separator ++ join separator (w :: rest)
  | [], w, acc => by simp [String.intercalate.go, join]
  | u :: r, w, acc => by
    have ih := intercalate_go_eq_join separator r u (acc ++ separator ++ w.joinString)
    have step : String.intercalate.go acc separator ((w :: u :: r).map Value.joinString)
        = String.intercalate.go (acc ++ separator ++ w.joinString) separator
            ((u :: r).map Value.joinString) := rfl
    rw [step, ih]
    simp only [join, String.append_assoc]

theorem join_eq_intercalate (separator : String) :
    ∀ l : List Value, join separator l = separator.intercalate (l.map Value.joinString)
  | [] => by simp [join, String.intercalate]
  | [v] => by simp [join, String.intercalate, String.intercalate.go]
  | v :: w :: rest => by
    have h := intercalate_go_eq_join separator rest w v.joinString
    simp only [List.map_cons] at h
    simp only [join, List.map_cons, String.intercalate, h]

/-- C14: in reporter mode (`util.thread.updateMonitor` false) `getListContents`
leaves the list and its flag as they were. When every cell is a string of
length exactly 1 (also when there is no cell) the result is the cells put
together with no separator; otherwise it is the stringified cells joined with
one space. So `["a", "b", "c"]` gives `"abc"` and `["ab", "c"]` gives `"ab c"`. -/
theorem getListContents_reporter (s : Store) :
    (getListContents s false).2 = s ∧
    ((∀ v ∈ s.list.value.items, ∃ str, v = .string str ∧ jsLength str = 1) →
      (getListContents s false).1
        = .text ("".intercalate (s.list.value.items.map Value.joinString))) ∧
    (¬ (∀ v ∈ s.list.value.items, ∃ str, v = .string str ∧ jsLength str = 1) →
      (getListContents s false).1
        = .text (" ".intercalate (s.list.value.items.map Value.joinString))) ∧
    (∀ (ref nextRef : Nat) (flag : Bool),
      (getListContents
        { list := { value := { ref := ref, items := [.string "a", .string "b", .string "c"] },
                    _monitorUpToDate := flag }, nextRef := nextRef } false).1 = .text "abc" ∧
      (getListContents
        { list := { value := { ref := ref, items := [.string "ab", .string "c"] },
                    _monitorUpToDate := flag }, nextRef := nextRef } false).1 = .text "ab c" ∧
      (getListContents
        { list := { value := { ref := ref, items := [] },
                    _monitorUpToDate := flag }, nextRef := nextRef } false).1 = .text "") := by
  refine ⟨?_, ?_, ?_, ?_⟩
  · unfold getListContents
    split_ifs <;> first | rfl | contradiction
  · intro hall
    have h := (allSingleLetters_iff s.list.value.items).mpr hall
    simp [getListContents, h, join_eq_intercalate]
  · intro hnot
    have h : allSingleLetters s.list.value.items = false := by
      cases hb : allSingleLetters s.list.value.items with
      | false => rfl
      | true => exact absurd ((allSingleLetters_iff s.list.value.items).mp hb) hnot
    simp [getListContents, h, join_eq_intercalate]
  · intro ref nextRef flag
    have h1 : allSingleLetters [.string "a", .string "b", .string "c"] = true := by decide
    have h2 : join "" [.string "a", .string "b", .string "c"] = "abc" := by decide
    have h3 : allSingleLetters [.string "ab", .string "c"] = false := by decide
    have h4 : join " " [.string "ab", .string "c"] = "ab c" := by decide
    have h5 : allSingleLetters [] = true := by decide
    have h6 : join "" [] = "" := by decide
    simp [getListContents, h1, h2, h3, h4, h5, h6]

theorem getListContents_reporter_witness :
    (∀ v ∈ ([.string "a", .string "b", .string "c"] : List Value),
      ∃ str, v = .string str ∧ jsLength str = 1) ∧
    ¬ (∀ v ∈ smallStore.list.value.items, ∃ str, v = .string str ∧ jsLength str = 1) ∧
    (getListContents smallStore false).1
      = .text (" ".intercalate (smallStore.list.value.items.map Value.joinString)) ∧
    (getListContents smallStore false).1 = .text "4 7 123" :=
  have hnot : ¬ (∀ v ∈ smallStore.list.value.items,
      ∃ str, v = .string str ∧ jsLength str = 1) := by
    intro h
    obtain ⟨str, hstr, _⟩ := h (.number 4) (by simp [smallStore])
    cases hstr
  ⟨(allSingleLetters_iff _).mp (by decide), hnot,
    (getListContents_reporter smallStore).2.2.1 hnot, by decide⟩

/-! ## Scalar variables -/

theorem strictEquals_eq (a b : Value) (h : a.strictEquals b = true) : a = b := by
  cases a <;> cases b <;> simp_all [Value.strictEquals]

/-- C15: after `setVariable` the value held is the given one. If `isCloud` is
true and the given value is not strictly equal (`===`) to the one held before,
exactly one query is sent, a cloud `requestUpdateVariable` carrying the name
and the new value; in every other case no query is sent. With a value strictly
equal to the one held, nothing changes at all. -/
theorem setVariable_spec (s : VariableStore) (x : Value) :
    (setVariable s x).var.value = x ∧
    (setVariable s x).var.name = s.var.name ∧
    (setVariable s x).var.isCloud = s.var.isCloud ∧
    (s.var.isCloud = true ∧ s.var.value.strictEquals x = false →
      (setVariable s x).ioQueries = s.ioQueries ++
        [{ device := "cloud", func := "requestUpdateVariable",
           args := [.string s.var.name, x] }]) ∧
    (¬ (s.var.isCloud = true ∧ s.var.value.strictEquals x = false) →
      (setVariable s x).ioQueries = s.ioQueries) ∧
    (s.var.value.strictEquals x = true → setVariable s x = s) := by
  cases heq : s.var.value.strictEquals x
  · cases hcloud : s.var.isCloud <;>
      simp [setVariable, heq, hcloud, requestUpdateVariable]
  · have hval := strictEquals_eq _ _ heq
    have hset : setVariable s x = s := by simp [setVariable, heq]
    rw [hset]
    refine ⟨hval, rfl, rfl, ?_, ?_, ?_⟩ <;> simp

theorem setVariable_spec_witness :
    (cloudStore.var.isCloud = true ∧
      cloudStore.var.value.strictEquals (.number 11) = false) ∧
    cloudStore.var.value.strictEquals (.number 10) = true ∧
    (setVariable cloudStore (.number 11)).ioQueries =
      [{ device := "cloud", func := "requestUpdateVariable",
         args := [.string "score", .number 11] }] ∧
    setVariable cloudStore (.number 10) = cloudStore :=
  ⟨by decide, by decide,
    (setVariable_spec cloudStore (.number 11)).2.2.2.1 (by decide),
    (setVariable_spec cloudStore (.number 10)).2.2.2.2.2 (by decide)⟩

/-- C16: when `Cast.toNumber(VALUE)` is 0, `changeVariableBy` sends no query and
leaves the whole store as it was; the value held is not turned into a number.
This holds for cloud variables as for the others, and whatever the operator
`+` does, since it is not reached. -/
theorem changeVariableBy_zero (toNumber : Value → JSNumber)
    (plus : JSNumber → JSNumber → JSNumber) (s : VariableStore) (VALUE : Value)
    (hzero : toNumber VALUE = .int 0) :
    changeVariableBy toNumber plus s VALUE = s := by
  simp [changeVariableBy, hzero]

theorem changeVariableBy_zero_witness :
    Cast.toNumber (.string "0") = .int 0 ∧
    changeVariableBy Cast.toNumber (fun a _ => a)
      { var := { name := "score", value := .string "10", isCloud := true },
        ioQueries := [] } (.string "0")
      = { var := { name := "score", value := .string "10", isCloud := true },
          ioQueries := [] } :=
  ⟨by decide, changeVariableBy_zero Cast.toNumber (fun a _ => a) _ (.string "0") (by decide)⟩

/-! ## Appending, deleting one cell, overwriting one cell -/

/-- C18: below the cap `addToList` appends: the new list is the old one
followed by the item, so the length grows by exactly 1, every earlier cell
keeps its position and the last cell is the item. -/
theorem addToList_appends (s : Store) (x : Value) (hlt : lengthOfList s < LIST_ITEM_LIMIT) :
    (addToList s x).list.value.items = s.list.value.items ++ [x] ∧
    lengthOfList (addToList s x) = lengthOfList s + 1 ∧
    (∀ j, j < lengthOfList s →
      (addToList s x).list.value.items[j]? = s.list.value.items[j]?) ∧
    (addToList s x).list.value.items[lengthOfList s]? = some x ∧
    (addToList s x).list.value.items.getLast? = some x := by
  have hlt0 : s.list.value.items.length < LIST_ITEM_LIMIT := hlt
  have hitems : (addToList s x).list.value.items = s.list.value.items ++ [x] := by
    simp [addToList, hlt0]
  refine ⟨hitems, ?_, ?_, ?_, ?_⟩
  · simp [lengthOfList, hitems]
  · intro j hj
    rw [hitems]
    exact List.getElem?_append_left hj
  · rw [hitems]
    simp [lengthOfList]
  · rw [hitems]
    simp

theorem addToList_appends_witness :
    lengthOfList smallStore < LIST_ITEM_LIMIT ∧
    (addToList smallStore (.string "x")).list.value.items
      = [.number 4, .number 7, .string "123", .string "x"] :=
  ⟨by decide, (addToList_appends smallStore (.string "x") (by decide)).1⟩

theorem minusOne_index_natCast (i : Nat) (h1 : 1 ≤ i) :
    ListIndex.minusOne (.index (i : Int)) = ((i - 1 : Nat) : Int) := by
  simp only [ListIndex.minusOne]
  omega

/-- C19: with an index `i` within `1 .. length`, `deleteOfList` removes exactly
the cell at position `i`: the new list is the first `i - 1` cells followed by
the cells after position `i`, in their order, and the length drops by 1. -/
theorem deleteOfList_removes_one (s : Store) (i : Nat)
    (h1 : 1 ≤ i) (h2 : i ≤ lengthOfList s) :
    (deleteOfList s (.index i)).list.value.items
      = s.list.value.items.take (i - 1) ++ s.list.value.items.drop i ∧
    (deleteOfList s (.index i)).list.value.items = s.list.value.items.eraseIdx (i - 1) ∧
    lengthOfList (deleteOfList s (.index i)) + 1 = lengthOfList s := by
  have hlt : i - 1 < s.list.value.items.length := by
    simp only [lengthOfList] at h2
    omega
  have hitems : (deleteOfList s (.index i)).list.value.items
      = s.list.value.items.eraseIdx (i - 1) := by
    simp only [deleteOfList, reduceCtorEq, if_false]
    rw [minusOne_index_natCast i h1, splice_delete _ _ hlt]
  have hsucc : i - 1 + 1 = i := by omega
  refine ⟨?_, hitems, ?_⟩
  · rw [hitems, List.eraseIdx_eq_take_drop_succ, hsucc]
  · simp only [lengthOfList, hitems, List.length_eraseIdx, hlt, if_true]
    omega

theorem deleteOfList_removes_one_witness :
    1 ≤ 2 ∧ 2 ≤ lengthOfList smallStore ∧
    (deleteOfList smallStore (.index (2 : Nat))).list.value.items
      = List.take (2 - 1) smallStore.list.value.items ++ List.drop 2 smallStore.list.value.items ∧
    (deleteOfList smallStore (.index (2 : Nat))).list.value.items
      = [.number 4, .string "123"] :=
  ⟨by decide, by decide,
    (deleteOfList_removes_one smallStore 2 (by decide) (by decide)).1, by decide⟩

/-- C20: with an index `i` within `1 .. length`, `replaceItemOfList` overwrites
in place: the length is unchanged, the cell at 1-based position `i` is the
item, so that `itemOfList` at `i` returns it, and every other position holds
the cell it held before. -/
theorem replaceItemOfList_overwrites (s : Store) (x : Value) (i : Nat)
    (h1 : 1 ≤ i) (h2 : i ≤ lengthOfList s) :
    (replaceItemOfList s (.index i) x).list.value.items = s.list.value.items.set (i - 1) x ∧
    lengthOfList (replaceItemOfList s (.index i) x) = lengthOfList s ∧
    (replaceItemOfList s (.index i) x).list.value.items[i - 1]? = some x ∧
    itemOfList (replaceItemOfList s (.index i) x) (.index i) = x ∧
    (∀ j, j ≠ i - 1 →
      (replaceItemOfList s (.index i) x).list.value.items[j]? = s.list.value.items[j]?) := by
  have hlt : i - 1 < s.list.value.items.length := by
    simp only [lengthOfList] at h2
    omega
  have hitems : (replaceItemOfList s (.index i) x).list.value.items
      = s.list.value.items.set (i - 1) x := by
    simp only [replaceItemOfList, reduceCtorEq, if_false]
    rw [minusOne_index_natCast i h1, splice_replace _ _ _ hlt]
  have hget : (replaceItemOfList s (.index i) x).list.value.items[i - 1]? = some x := by
    rw [hitems, List.getElem?_set_self hlt]
  have hidx : ((i : Int) - 1).toNat = i - 1 := by omega
  have hpos : (1 : Int) ≤ (i : Int) := by omega
  refine ⟨hitems, ?_, hget, ?_, ?_⟩
  · simp [lengthOfList, hitems]
  · simp [itemOfList, elementAt, hpos, hidx, hget]
  · intro j hj
    rw [hitems, List.getElem?_set_ne (Ne.symm hj)]

theorem replaceItemOfList_overwrites_witness :
    1 ≤ 2 ∧ 2 ≤ lengthOfList smallStore ∧
    (replaceItemOfList smallStore (.index (2 : Nat)) (.string "x")).list.value.items
      = [.number 4, .string "x", .string "123"] ∧
    itemOfList (replaceItemOfList smallStore (.index (2 : Nat)) (.string "x")) (.index (2 : Nat))
      = .string "x" :=
  have h := replaceItemOfList_overwrites smallStore (.string "x") 2 (by decide) (by decide)
  ⟨by decide, by decide, h.1, h.2.2.2.1⟩

/-! ## Relations between the operations -/

/-- C21: for a list of at most 200000 cells, `insertAtList` with the index
`length + 1` gives exactly the store that `addToList` gives: the same cells,
the same `_monitorUpToDate` flag and the same backing array. At capacity both
return the store untouched. -/
theorem insertAtList_tail_eq_addToList (s : Store) (x : Value)
    (hcap : lengthOfList s ≤ LIST_ITEM_LIMIT) :
    insertAtList s (.index ((lengthOfList s + 1 : Nat) : Int)) x = addToList s x ∧
    (lengthOfList s = LIST_ITEM_LIMIT →
      insertAtList s (.index ((lengthOfList s + 1 : Nat) : Int)) x = s ∧ addToList s x = s) := by
  have hcap0 : s.list.value.items.length ≤ LIST_ITEM_LIMIT := hcap
  have hfull : lengthOfList s = LIST_ITEM_LIMIT → addToList s x = s := by
    intro hlen
    have hlen0 : s.list.value.items.length = LIST_ITEM_LIMIT := hlen
    simp [addToList, hlen0]
  have heq : insertAtList s (.index ((lengthOfList s + 1 : Nat) : Int)) x = addToList s x := by
    by_cases hlt : s.list.value.items.length < LIST_ITEM_LIMIT
    · have hgt : ListIndex.gtLimit (.index ((lengthOfList s + 1 : Nat) : Int)) = false := by
        simp only [ListIndex.gtLimit, decide_eq_false_iff_not, lengthOfList]
        omega
      have hm : ListIndex.minusOne (.index ((lengthOfList s + 1 : Nat) : Int))
          = ((s.list.value.items.length : Nat) : Int) := by
        simp only [ListIndex.minusOne, lengthOfList]
        omega
      have hsp : splice s.list.value.items
          (ListIndex.minusOne (.index ((lengthOfList s + 1 : Nat) : Int))) 0 [x]
          = s.list.value.items ++ [x] := by
        rw [hm, splice_insert _ _ _ (Nat.le_refl _), List.insertIdx_length_self]
      have hnot : ¬ ((s.list.value.items ++ [x]).length > LIST_ITEM_LIMIT) := by
        simp only [List.length_append, List.length_singleton]
        omega
      simp only [insertAtList, addToList, reduceCtorEq, if_false, hgt, hsp, hlt, hnot,
        Bool.false_eq_true, if_true]
    · have hgt : ListIndex.gtLimit (.index ((lengthOfList s + 1 : Nat) : Int)) = true := by
        simp only [ListIndex.gtLimit, decide_eq_true_eq, lengthOfList]
        omega
      simp only [insertAtList, addToList, reduceCtorEq, if_false, hgt, hlt, if_true]
  exact ⟨heq, fun hlen => ⟨heq.trans (hfull hlen), hfull hlen⟩⟩

theorem insertAtList_tail_eq_addToList_witness :
    lengthOfList smallStore ≤ LIST_ITEM_LIMIT ∧ lengthOfList fullStore ≤ LIST_ITEM_LIMIT ∧
    insertAtList smallStore (.index ((lengthOfList smallStore + 1 : Nat) : Int)) (.string "x")
      = addToList smallStore (.string "x") ∧
    (addToList smallStore (.string "x")).list.value.items
      = [.number 4, .number 7, .string "123", .string "x"] ∧
    insertAtList fullStore (.index ((lengthOfList fullStore + 1 : Nat) : Int)) (.string "x")
      = fullStore ∧
    addToList fullStore (.string "x") = fullStore :=
  have hfull := insertAtList_tail_eq_addToList fullStore (.string "x")
    (Nat.le_of_eq lengthOfList_fullStore)
  ⟨by decide, Nat.le_of_eq lengthOfList_fullStore,
    (insertAtList_tail_eq_addToList smallStore (.string "x") (by decide)).1, by decide,
    (hfull.2 lengthOfList_fullStore).1, (hfull.2 lengthOfList_fullStore).2⟩

theorem Cast.compare_self (v : Value) : Cast.compare v v = 0 := by
  unfold Cast.compare
  cases h : Cast.numberOf v with
  | some n => simp
  | none =>
    have hirr : ¬ (Cast.lowerChars v < Cast.lowerChars v) := lt_irrefl _
    simp [hirr]

/-- C22: with a comparator that is reflexive (`Cast.compare(v, v)` is 0 for
every value, so that strictly equal cells also compare equal),
`listContainsItem` is true exactly when `itemNumOfList` is not 0: the raw
`indexOf` test never changes the answer. -/
theorem listContainsItem_iff_itemNumOfList (compare : Value → Value → Int)
    (hrefl : ∀ v, compare v v = 0) (s : Store) (x : Value) :
    listContainsItem compare s x = true ↔ itemNumOfList compare s x ≠ 0 := by
  have hnum := (itemNumOfList.scan_spec compare x s.list.value.items 0).1
  have hex : itemNumOfList compare s x ≠ 0 ↔ ∃ e ∈ s.list.value.items, compare e x = 0 := by
    unfold itemNumOfList
    rw [Ne, hnum]
    push_neg
    rfl
  rw [hex]
  unfold listContainsItem
  split
  · rename_i h
    obtain ⟨e, he, hstrict⟩ := (indexOf.scan_nonneg_iff x s.list.value.items 0).mp h
    have heq := strictEquals_eq e x hstrict
    simp only [true_iff]
    exact ⟨e, he, by rw [heq]; exact hrefl x⟩
  · exact listContainsItem.scan_iff compare x s.list.value.items

theorem listContainsItem_iff_itemNumOfList_witness :
    (∀ v, Cast.compare v v = 0) ∧
    (listContainsItem Cast.compare smallStore (.number 123) = true ↔
      itemNumOfList Cast.compare smallStore (.number 123) ≠ 0) ∧
    listContainsItem Cast.compare smallStore (.number 123) = true ∧
    itemNumOfList Cast.compare smallStore (.number 123) = 3 ∧
    listContainsItem Cast.compare smallStore (.number 5) = false ∧
    itemNumOfList Cast.compare smallStore (.number 5) = 0 :=
  ⟨Cast.compare_self,
    listContainsItem_iff_itemNumOfList Cast.compare Cast.compare_self smallStore (.number 123),
    by decide, by decide, by decide, by decide⟩

theorem deleteOfList_items_of_valid (s : Store) (i : Nat)
    (h1 : 1 ≤ i) (h2 : i ≤ lengthOfList s) :
    (deleteOfList s (.index i)).list.value.items = s.list.value.items.eraseIdx (i - 1) := by
  have hlt : i - 1 < s.list.value.items.length := by
    simp only [lengthOfList] at h2
    omega
  simp only [deleteOfList, reduceCtorEq, if_false]
  rw [minusOne_index_natCast i h1, splice_delete _ _ hlt]

/-- C23: below the cap, `insertAtList` at an index `i` within `1 .. length + 1`
followed by `deleteOfList` at the same index `i`, which is in range for the
longer list, gives back exactly the cells of the list before the insert. -/
theorem delete_undoes_insert (s : Store) (x : Value) (i : Nat)
    (hlt : lengthOfList s < LIST_ITEM_LIMIT) (h1 : 1 ≤ i) (h2 : i ≤ lengthOfList s + 1) :
    (ListIndex.index i).resultFor (lengthOfList (insertAtList s (.index i) x)) ∧
    (deleteOfList (insertAtList s (.index i) x) (.index i)).list.value.items
      = s.list.value.items := by
  have hlt0 : s.list.value.items.length < LIST_ITEM_LIMIT := hlt
  have hk : i - 1 ≤ s.list.value.items.length := by
    simp only [lengthOfList] at h2
    omega
  have hins : (insertAtList s (.index i) x).list.value.items
      = s.list.value.items.insertIdx (i - 1) x := by
    rw [insertAtList_items_of_le s x i h1 h2 (by simp only [lengthOfList] at h2; omega),
      if_neg (by simp only [lengthOfList]; omega)]
  have hlen : lengthOfList (insertAtList s (.index i) x) = lengthOfList s + 1 := by
    simp only [lengthOfList, hins]
    exact List.length_insertIdx _ _ hk
  refine ⟨⟨by omega, by rw [hlen]; exact_mod_cast h2⟩, ?_⟩
  have hdel := (deleteOfList_items_of_valid (insertAtList s (.index i) x) i h1 (by rw [hlen]; exact h2))
  rw [hdel, hins, List.eraseIdx_insertIdx]

theorem delete_undoes_insert_witness :
    lengthOfList smallStore < LIST_ITEM_LIMIT ∧ 1 ≤ 2 ∧ 2 ≤ lengthOfList smallStore + 1 ∧
    (insertAtList smallStore (.index (2 : Nat)) (.string "x")).list.value.items
      = [.number 4, .string "x", .number 7, .string "123"] ∧
    (deleteOfList (insertAtList smallStore (.index (2 : Nat)) (.string "x"))
      (.index (2 : Nat))).list.value.items = smallStore.list.value.items :=
  ⟨by decide, by decide, by decide, by decide,
    (delete_undoes_insert smallStore (.string "x") 2 (by decide) (by decide) (by decide)).2⟩

end Scratch3DataBlocks
